import Mathlib

/-!
Verification of the NuRadioMC event-generation and sharded-persistence pipeline
(NuRadioMC/EvtGen/generator.py).

The Python module is shallowly embedded: every definition below mirrors one
function (or one clearly delimited block) of generator.py, with real numbers
modelled as rationals, numpy arrays as lists, dictionaries of per-event arrays
as lists of a Row structure, and fallible code as Option.  Floating point
rounding is not modelled; all claims under study are about control flow,
counting and exact record bookkeeping, none of which depend on rounding.
Random sampling is modelled by keeping the sampled values abstract and by
recording the order of sampling operations where a claim is about that order.
Logging calls are elided.
-/

/-- Python int() applied to a rational: truncation toward zero. -/
def pyInt (q : ℚ) : ℤ := if 0 ≤ q then ⌊q⌋ else ⌈q⌉

/-! ### Ray/box intersection (generator.py lines 500-548)

intersection_box_ray receives a box as two corner points and a ray as origin
plus direction.  The embedding below keeps the exact slab computation of the
source, including the fact that line 521 multiplies the far x-slab distance by
invdir[1] (the y component) rather than invdir[0]. -/

/-- A 3-vector of rationals. -/
structure V3 where
  x : ℚ
  y : ℚ
  z : ℚ
deriving DecidableEq

/-- Faithful embedding of intersection_box_ray.  bounds[0] is blo, bounds[1]
is bhi; sign[k] selects which corner supplies the near slab plane.  Note the
source computes tmax with invdir[1] (line 521). -/
def intersection_box_ray (blo bhi orig dir : V3) : Bool :=
  let invdx := 1 / dir.x
  let invdy := 1 / dir.y
  let invdz := 1 / dir.z
  let tmin := ((if invdx < 0 then bhi.x else blo.x) - orig.x) * invdx
  let tmax := ((if invdx < 0 then blo.x else bhi.x) - orig.x) * invdy
  let tymin := ((if invdy < 0 then bhi.y else blo.y) - orig.y) * invdy
  let tymax := ((if invdy < 0 then blo.y else bhi.y) - orig.y) * invdy
  if tmin > tymax ∨ tymin > tmax then false
  else
    let tmin2 := if tymin > tmin then tymin else tmin
    let tmax2 := if tymax < tmax then tymax else tmax
    let tzmin := ((if invdz < 0 then bhi.z else blo.z) - orig.z) * invdz
    let tzmax := ((if invdz < 0 then blo.z else bhi.z) - orig.z) * invdz
    if tmin2 > tzmax ∨ tzmin > tmax2 then false
    else
      let tmin3 := if tzmin > tmin2 then tzmin else tmin2
      let tmax3 := if tzmax < tmax2 then tzmax else tmax2
      if tmin3 < 0 then (if tmax3 < 0 then false else true) else true

/-- The point origin + t * direction of a ray. -/
def ray_point (orig dir : V3) (t : ℚ) : V3 :=
  ⟨orig.x + t * dir.x, orig.y + t * dir.y, orig.z + t * dir.z⟩

/-- Membership of a point in the closed axis-aligned box [blo, bhi]. -/
def in_box (blo bhi p : V3) : Prop :=
  blo.x ≤ p.x ∧ p.x ≤ bhi.x ∧ blo.y ≤ p.y ∧ p.y ≤ bhi.y ∧ blo.z ≤ p.z ∧ p.z ≤ bhi.z

/-! ### primary_energy_from_deposited (generator.py lines 207-232) -/

/-- Faithful embedding of primary_energy_from_deposited.  The Python function
falls off the end (returning None) for interaction strings other than nc/cc
and for cc with a flavor of absolute value outside 12/14/16. -/
def primary_energy_from_deposited (Edep : ℚ) (ccnc : String) (flavor : ℤ)
    (inelasticity : ℚ) : Option ℚ :=
  if ccnc = "nc" then some (Edep / inelasticity)
  else if ccnc = "cc" then
    if flavor.natAbs = 12 then some Edep
    else if flavor.natAbs = 14 then some (Edep / inelasticity)
    else if flavor.natAbs = 16 then some (Edep / inelasticity)
    else none
  else none

/-! ### Spectrum dispatch and the sampling order of generate_eventlist_cylinder
(generator.py lines 318-371 and 980-1008) -/

/-- True when the string starts with the two characters E and minus, which is
the spectrum_type.startswith test of get_energies (line 342). -/
def starts_with_e_minus (s : String) : Bool :=
  match s.data with
  | 'E' :: '-' :: _ => true
  | _ => false

/-- The spectrum names accepted by get_energies; every other name raises
NotImplementedError (lines 340-370). -/
def spectrum_known (s : String) : Bool :=
  s = "log_uniform" || starts_with_e_minus s || s = "GZK-1" ||
    s = "IceCube-nu-2017" || s = "GZK-1+IceCube-nu-2017"

/-- Kinds of random draws performed by generate_eventlist_cylinder. -/
inductive DrawKind where
  | direction
  | vertexPosition
  | flavorDraw
  | energyDraw
  | ccncDraw
  | inelasticityDraw
deriving DecidableEq

/-- Sequencing model of generate_eventlist_cylinder down to the inelasticity
draw (lines 980-1008): azimuths and zeniths are drawn first (two direction
draws), then vertex positions, then flavors, and only then does get_energies
run, raising NotImplementedError for an unknown spectrum before any energy is
drawn.  The interaction-type and inelasticity draws follow the energy draw.
Returns the list of draws performed and whether the unknown-spectrum error was
raised. -/
def generate_eventlist_draw_trace (spectrum : String) : List DrawKind × Bool :=
  let pre := [DrawKind.direction, DrawKind.direction, DrawKind.vertexPosition,
    DrawKind.flavorDraw]
  if spectrum_known spectrum then
    (pre ++ [DrawKind.energyDraw, DrawKind.ccncDraw, DrawKind.inelasticityDraw], false)
  else (pre, true)

/-! ### generate_vertex_positions, cylinder branch (generator.py lines 374-443)

The embedding keeps the resolution of the full-volume bounds and the inflated
event count; the actual uniform draws of r, phi and z are random and are not
modelled.  In the branch where the volume has no full_rmax key, the source
assigns the inflated radius to a separate local variable full_rmax (line 412)
and leaves rmax unchanged; that local is only consumed by the radial sampling
at line 438.  The sampling_rmax field below records that local (none when the
source never assigns it, in which case line 438 would raise NameError).
Logging calls, including the one at line 424 that reads a not yet assigned
attribute, are elided. -/

/-- Cylinder volume specification: the fiducial bounds plus the optional
full-volume overrides. -/
structure CylinderVolume where
  fiducial_rmin : Option ℚ
  fiducial_rmax : ℚ
  fiducial_zmin : ℚ
  fiducial_zmax : ℚ
  full_rmin : Option ℚ
  full_rmax : Option ℚ
  full_zmin : Option ℚ
  full_zmax : Option ℚ
deriving DecidableEq

/-- Attributes resolved by the cylinder branch of generate_vertex_positions,
together with the (possibly inflated) number of events to generate and the
value of the local variable full_rmax used for radial sampling. -/
structure CylinderAttrs where
  fiducial_rmin : ℚ
  fiducial_rmax : ℚ
  fiducial_zmin : ℚ
  fiducial_zmax : ℚ
  rmin : ℚ
  rmax : ℚ
  zmin : ℚ
  zmax : ℚ
  n_events : ℤ
  sampling_rmax : Option ℚ
deriving DecidableEq

/-- Faithful embedding of the cylinder branch of generate_vertex_positions.
tau_95_length is the value of get_tau_95_length at the maximum energy (a
fixed positive quartic fit, kept abstract here).  When proposal is true and
full_rmax is absent, the source stores the inflated radius in the local
full_rmax only, so the resolved rmax stays at the fiducial value and the
event-count multiplier int((rmax/fiducial_rmax)^2 * zmin/fiducial_zmin) is
computed with the uninflated rmax. -/
def generate_vertex_positions_cylinder (volume : CylinderVolume) (proposal : Bool)
    (tau_95_length : ℚ) (n_events : ℕ) : CylinderAttrs :=
  let fRmin := volume.fiducial_rmin.getD 0
  let fRmax := volume.fiducial_rmax
  let fZmin := volume.fiducial_zmin
  let fZmax := volume.fiducial_zmax
  if proposal then
    let rmin := volume.full_rmin.getD (fRmin / 3)
    let rmaxPair : ℚ × Option ℚ :=
      match volume.full_rmax with
      | some v => (v, none)
      | none => (fRmax, some (tau_95_length + fRmax))
    let rmax := rmaxPair.1
    let zmax := volume.full_zmax.getD (fZmax / 3)
    let zmin := volume.full_zmin.getD (fZmin - tau_95_length)
    let nEv : ℤ := (n_events : ℤ) * pyInt ((rmax / fRmax) ^ 2 * zmin / fZmin)
    ⟨fRmin, fRmax, fZmin, fZmax, rmin, rmax, zmin, zmax, nEv, rmaxPair.2⟩
  else
    ⟨fRmin, fRmax, fZmin, fZmax, fRmin, fRmax, fZmin, fZmax, (n_events : ℤ), none⟩

/-! ### The per-row data model

generator.py keeps the event table as a dictionary of parallel arrays keyed by
event_group_ids, flavors, energies, interaction_type, xx, yy, zz, zeniths,
azimuths, inelasticity, n_interaction, vertex_times, shower_energies and
shower_type.  A Row below is one index of those arrays.  The zenith/azimuth
pair is consumed by the source only through the Cartesian products
sin(zenith)cos(azimuth), sin(zenith)sin(azimuth) and cos(zenith) (lines
311-313 and 1063), so the embedding stores those three rationals (szcp, szsp,
cz) directly.  The float nan written into inelasticity for secondary rows is
modelled as none. -/
structure Row where
  event_group_id : ℤ
  flavors : ℤ
  energies : ℚ
  interaction_type : String
  xx : ℚ
  yy : ℚ
  zz : ℚ
  szcp : ℚ
  szsp : ℚ
  cz : ℚ
  inelasticity : Option ℚ
  n_interaction : ℕ
  vertex_times : ℚ
  shower_energies : ℚ
  shower_type : String
deriving DecidableEq

/-- A fixed row used as the default of list lookups whose index is always in
range in the source. -/
def defaultRow : Row := ⟨0, 0, 0, "", 0, 0, 0, 0, 0, 0, none, 1, 0, 0, ""⟩

/-- Speed of light in the unit system of the source (meters and nanoseconds);
its exact value is irrelevant to the claims. -/
def cspeed : ℚ := 299792458 / 1000000000

/-! ### Electron charged-current splitting (generator.py lines 1017-1036) -/

/-- Vectorized assignment of lines 1018-1019: every row gets a hadronic shower
with energy = energies * inelasticity. -/
def assign_shower (r : Row) : Row :=
  { r with shower_energies := r.energies * r.inelasticity.getD 0, shower_type := "had" }

/-- em_shower_mask of line 1022: charged current and electron flavor. -/
def emMask (r : Row) : Bool :=
  decide (r.interaction_type = "cc" ∧ r.flavors.natAbs = 12)

/-- The ascending list of indices where emMask holds, as produced by
np.arange(n_events)[em_shower_mask] (line 1027). -/
def maskIdxs : List Row → List ℕ
  | [] => []
  | r :: rest =>
    if emMask r then 0 :: (maskIdxs rest).map Nat.succ
    else (maskIdxs rest).map Nat.succ

/-- Python list.insert: place x before position pos. -/
def pyInsert (l : List Row) (pos : ℕ) (x : Row) : List Row :=
  l.take pos ++ x :: l.drop pos

/-- The insertion loop of lines 1027-1032: for each masked original index i
(visited in ascending order, with n_inserted completed insertions so far), a
copy of the row currently at i + n_inserted is inserted at i + 1 + n_inserted
and its shower energy and class are overwritten with the electromagnetic
values. -/
def emLoop : List Row → List ℕ → ℕ → List Row
  | cur, [], _ => cur
  | cur, i :: rest, nInserted =>
    let src := cur.getD (i + nInserted) defaultRow
    let emRow := { src with
      shower_energies := (1 - src.inelasticity.getD 0) * src.energies
      shower_type := "em" }
    emLoop (pyInsert cur (i + 1 + nInserted) emRow) rest (nInserted + 1)

/-- Lines 1017-1036 as one table transformation: assign hadronic showers to
every row, then splice an electromagnetic copy after every electron
charged-current row. -/
def em_split (rows : List Row) : List Row :=
  let t := rows.map assign_shower
  emLoop t (maskIdxs t) 0

/-- The electromagnetic copy of a row: same kinematics, shower energy
(1 - inelasticity) * energy, shower class em. -/
def em_copy (r : Row) : Row :=
  { r with shower_energies := (1 - r.inelasticity.getD 0) * r.energies
           shower_type := "em" }

/-- Specification-side description of the splitting: each row expands in place
to itself (hadronic, energy y*E) or, for electron charged-current rows, to the
adjacent pair hadronic then electromagnetic. -/
def em_split_spec_row (r : Row) : List Row :=
  if emMask r then [assign_shower r, em_copy (assign_shower r)]
  else [assign_shower r]

/-! ### Secondary expansion of generate_eventlist_cylinder
(generator.py lines 1067-1132) -/

/-- A product particle returned by the external propagator: distance along
the track, shower energy, shower class string, and particle code. -/
structure SecondaryProduct where
  distance : ℚ
  energy : ℚ
  shower_type : String
  code : ℤ
deriving DecidableEq

/-- The fiducial cylinder bounds read from the run attributes. -/
structure FiducialCylinder where
  fiducial_rmin : ℚ
  fiducial_rmax : ℚ
  fiducial_zmin : ℚ
  fiducial_zmax : ℚ
deriving DecidableEq

/-- Membership test of lines 1076-1077 and 1100-1101: radial distance between
rmin and rmax and height between zmin and zmax.  The source compares
sqrt(x^2+y^2) with the bounds; the embedding compares squares, which is
equivalent for the nonnegative radii of a cylinder specification. -/
def in_fiducial_cylinder (a : FiducialCylinder) (x y z : ℚ) : Bool :=
  decide (a.fiducial_rmin ^ 2 ≤ x ^ 2 + y ^ 2 ∧
    x ^ 2 + y ^ 2 ≤ a.fiducial_rmax ^ 2 ∧
    a.fiducial_zmin ≤ z ∧ z ≤ a.fiducial_zmax)

/-- get_product_position_time (lines 286-315): the product sits distance
units backward along the inbound direction from the parent vertex, at time
distance / c. -/
def get_product_position_time (r : Row) (p : SecondaryProduct) : ℚ × ℚ × ℚ × ℚ :=
  (r.xx - p.distance * r.szcp, r.yy - p.distance * r.szsp,
    r.zz - p.distance * r.cz, p.distance / cspeed)

/-- The field overwrites of lines 1116-1132 applied to a fresh copy of the
parent row: interaction index k, shower energy and class from the product,
undefined inelasticity, product position and time, product particle code. -/
def secondary_row (parent : Row) (k : ℕ) (p : SecondaryProduct)
    (x y z t : ℚ) : Row :=
  { parent with n_interaction := k, shower_energies := p.energy
                inelasticity := none, interaction_type := p.shower_type
                shower_type := p.shower_type, xx := x, yy := y, zz := z
                vertex_times := t, flavors := p.code }

/-- The product loop of lines 1095-1132 for one event group: for each product
inside the fiducial volume, append copies of the parent row (two copies when
this is the first fiducial contribution of a group whose own vertex was not
inserted, else one) and overwrite the last appended copy with the secondary
record; the interaction counter starts at 2 and increments per appended
secondary. -/
def process_products (a : FiducialCylinder) (parent : Row) :
    Bool → ℕ → List SecondaryProduct → List Row
  | _, _, [] => []
  | firstInserted, n_interaction, p :: rest =>
    let q := get_product_position_time parent p
    if in_fiducial_cylinder a q.1 q.2.1 q.2.2.1 then
      (if firstInserted then [] else [parent]) ++
        secondary_row parent n_interaction p q.1 q.2.1 q.2.2.1 q.2.2.2 ::
          process_products a parent true (n_interaction + 1) rest
    else
      process_products a parent firstInserted n_interaction rest

/-- Specification-side list of the secondary records themselves: one per
fiducial product, indexed consecutively from k. -/
def fiducial_secondaries (a : FiducialCylinder) (parent : Row) :
    ℕ → List SecondaryProduct → List Row
  | _, [] => []
  | k, p :: rest =>
    let q := get_product_position_time parent p
    if in_fiducial_cylinder a q.1 q.2.1 q.2.2.1 then
      secondary_row parent k p q.1 q.2.1 q.2.2.1 q.2.2.2 ::
        fiducial_secondaries a parent (k + 1) rest
    else fiducial_secondaries a parent k rest

/-- True when some product of the list lands inside the fiducial volume. -/
def has_fiducial_product (a : FiducialCylinder) (parent : Row)
    (l : List SecondaryProduct) : Bool :=
  l.any fun p =>
    let q := get_product_position_time parent p
    in_fiducial_cylinder a q.1 q.2.1 q.2.2.1

/-- Lines 1067-1132 for one lepton-producing event group: the primary row is
inserted when the vertex is inside the fiducial volume (first_inserted), and
the product loop runs with the interaction counter starting at 2.  For a
cylinder volume the geometry preselection of line 1085 is always true
(get_intersection_volume_neutrino, lines 558-559). -/
def process_event_group (a : FiducialCylinder) (parent : Row)
    (prods : List SecondaryProduct) : List Row :=
  let firstInserted := in_fiducial_cylinder a parent.xx parent.yy parent.zz
  (if firstInserted then [parent] else []) ++
    process_products a parent firstInserted 2 prods

/-! ### Final table without proposal (generator.py lines 1140-1144) -/

/-- When proposal is false, data_sets_fiducial is the post-splitting table
itself (line 1141) and shower ids 0..N-1 are then assigned over it in order
(line 1144). -/
def generate_final_table_no_proposal (rows : List Row) : List Row × List ℕ :=
  let t := em_split rows
  (t, List.range t.length)

/-! ### Empty-table fallback of generate_surface_muons
(generator.py lines 815-818) -/

/-- If the fiducial table is empty, generate_surface_muons replaces it by a
single clone of the first input row with the flavor forced to 14.
generate_eventlist_cylinder has no corresponding step: its fiducial table
goes to the writer unchanged. -/
def surface_muons_empty_fallback (base : List Row) (fiducial : List Row) :
    List Row :=
  if fiducial = [] then [{ base.headD defaultRow with flavors := 14 }]
  else fiducial

/-! ### write_events_to_hdf5 (generator.py lines 96-204)

The writer is driven only by the event_group_ids column of the table, the
n_events and start_event_id attributes, n_events_per_file and start_file_id,
so the embedding takes the list of per-row event-group ids.  Each produced
shard records its file-name suffix (none when the plain base name is used,
some j when the source appends .part with the zero-padded number j), the
first and last claimed ids, the half-open row range, and the n_events
attribute written to the file. -/

/-- One output shard of write_events_to_hdf5. -/
structure Shard where
  fileSuffix : Option ℤ
  firstId : ℤ
  lastId : ℤ
  startIndex : ℕ
  stopIndex : ℕ
  nEventsThisFile : ℤ
deriving DecidableEq

/-- Ordered duplicate-free insertion, the building block of uniqueSorted. -/
def insertAsc (x : ℤ) : List ℤ → List ℤ
  | [] => [x]
  | y :: ys => if x < y then x :: y :: ys else if x = y then y :: ys else y :: insertAsc x ys

/-- np.unique: the sorted list of distinct values. -/
def uniqueSorted (l : List ℤ) : List ℤ := l.foldr insertAsc []

/-- Helper of lastStop: walk the id column keeping one past the last position
holding v. -/
def lastStopGo (v : ℤ) : ℕ → ℕ → List ℤ → ℕ
  | _, acc, [] => acc
  | i, acc, x :: xs => lastStopGo v (i + 1) (if x = v then i + 1 else acc) xs

/-- One past the last row whose event-group id equals v (lines 154-158): the
shard absorbs the rows of its last claimed event group completely. -/
def lastStop (ids : List ℤ) (v : ℤ) : ℕ := lastStopGo v 0 0 ids

/-- Last id of a nonempty id list (0 for an empty one, never consulted then). -/
def lastIdOf (l : List ℤ) : ℤ := l.getLastD 0

/-- The while loop of lines 133-203.  remaining is the tail of the unique
sorted id list not yet claimed, so the slice claimed by the current file is
remaining.take P and the following slice is (remaining.drop P).take P; iFile,
prevLast (evt_id_last_previous, initially 0) and startIndex are the loop
carried state.  The n_events attribute of the file follows the four cases of
lines 184-191, and the file name gets the .part suffix exactly when iFile is
positive or P is smaller than the total (line 141).  The loop stops either on
an empty slice or, after writing, when the last claimed id equals the total
event count (line 202).  The fuel argument only bounds the iteration count;
the wrapper passes one more than the number of unique ids, which the loop can
never exhaust because every iteration claims at least one id. -/
def shardLoopAux (ids : List ℤ) (nTotal : ℕ) (sid fid : ℤ) (P : ℕ) :
    ℕ → List ℤ → ℕ → ℤ → ℕ → List Shard
  | 0, _, _, _, _ => []
  | fuel + 1, remaining, iFile, prevLast, startIndex =>
    let thisFile := remaining.take P
    if thisFile = [] then [] else
    let evtIdFirst := thisFile.headD 0
    let evtIdLast := lastIdOf thisFile
    let stopIndex := lastStop ids evtIdLast
    let nextFile := (remaining.drop P).take P
    let nEv : ℤ :=
      if iFile = 0 ∧ nextFile = [] then (nTotal : ℤ)
      else if nextFile = [] then (nTotal : ℤ) - (prevLast + 1) + sid
      else if iFile = 0 then evtIdLast - sid + 1
      else evtIdLast - prevLast
    let sfx : Option ℤ := if 0 < iFile ∨ P < nTotal then some (fid + (iFile : ℤ)) else none
    let s : Shard := ⟨sfx, evtIdFirst, evtIdLast, startIndex, stopIndex, nEv⟩
    if evtIdLast = (nTotal : ℤ) then [s]
    else s :: shardLoopAux ids nTotal sid fid P fuel (remaining.drop P) (iFile + 1) evtIdLast stopIndex

/-- write_events_to_hdf5 on the event-group-id column.  An empty table makes
the source index data_sets["event_group_ids"][0] at line 129 and fail with
IndexError, modelled as none.  A missing n_events_per_file defaults to the
total event count (lines 124-127). -/
def write_events_to_hdf5 (egids : List ℤ) (nTotal : ℕ) (sid : ℤ)
    (nPerFile : Option ℕ) (startFileId : ℤ) : Option (List Shard) :=
  match egids with
  | [] => none
  | _ :: _ =>
    let P := nPerFile.getD nTotal
    let uniq := uniqueSorted egids
    some (shardLoopAux egids nTotal sid startFileId P (uniq.length + 1) uniq 0 0 0)

/-- Slice i of the unique sorted id list: the ids claimed by shard i. -/
def sliceIds (uniq : List ℤ) (P i : ℕ) : List ℤ := (uniq.drop (i * P)).take P

/-- Specification-side per-shard event count, written from the claimed four
cases in their stated precedence: (a) shard 0 is the only shard, (b) last
shard but not the first, (c) first shard with more following, (d) interior
shard. -/
def specCount (uniq : List ℤ) (P nTotal : ℕ) (sid : ℤ) (i : ℕ) : ℤ :=
  if i = 0 ∧ sliceIds uniq P (i + 1) = [] then (nTotal : ℤ)
  else if sliceIds uniq P (i + 1) = [] then
    (nTotal : ℤ) - (lastIdOf (sliceIds uniq P (i - 1)) + 1) + sid
  else if i = 0 then lastIdOf (sliceIds uniq P i) - sid + 1
  else lastIdOf (sliceIds uniq P i) - lastIdOf (sliceIds uniq P (i - 1))

/-! ### Sample rows used by concrete witnesses -/

/-- A baseline row as generate_surface_muons builds it (lines 715-744): one
interaction, inelasticity zero, shower energy energies * inelasticity = 0,
hadronic class, event id at the default start_event_id 1. -/
def surfaceRow0 : Row :=
  ⟨1, 13, 10, "", 0, 0, -5, 0, 0, 1, some 0, 1, 0, 0, "had"⟩

/-- A baseline row whose vertex is far outside any ordinary fiducial volume. -/
def sampleOutsideRow : Row :=
  ⟨1, 14, 10, "cc", 100000, 0, -5, 0, 0, 1, some (1/2), 1, 0, 5, "had"⟩

/-! ## Theorems -/

/-- C10: primary_energy_from_deposited returns Edep/inelasticity for neutral
current and for charged current with flavor of absolute value 14 or 16,
returns Edep unchanged for charged current with flavor of absolute value 12,
and returns no value (None, without raising) for every other interaction
string or flavor. -/
theorem primary_energy_from_deposited_cases :
    (∀ (Edep y : ℚ) (flavor : ℤ),
      primary_energy_from_deposited Edep "nc" flavor y = some (Edep / y)) ∧
    (∀ (Edep y : ℚ) (flavor : ℤ), flavor.natAbs = 14 ∨ flavor.natAbs = 16 →
      primary_energy_from_deposited Edep "cc" flavor y = some (Edep / y)) ∧
    (∀ (Edep y : ℚ) (flavor : ℤ), flavor.natAbs = 12 →
      primary_energy_from_deposited Edep "cc" flavor y = some Edep) ∧
    (∀ (Edep y : ℚ) (flavor : ℤ) (ccnc : String), ccnc ≠ "nc" → ccnc ≠ "cc" →
      primary_energy_from_deposited Edep ccnc flavor y = none) ∧
    (∀ (Edep y : ℚ) (flavor : ℤ), flavor.natAbs ≠ 12 → flavor.natAbs ≠ 14 →
      flavor.natAbs ≠ 16 → primary_energy_from_deposited Edep "cc" flavor y = none) := by
  refine ⟨?_, ?_, ?_, ?_, ?_⟩
  · intro E y fl
    simp [primary_energy_from_deposited]
  · intro E y fl h
    rcases h with h | h <;> simp [primary_energy_from_deposited, h]
  · intro E y fl h
    simp [primary_energy_from_deposited, h]
  · intro E y fl c h1 h2
    simp [primary_energy_from_deposited, h1, h2]
  · intro E y fl h1 h2 h3
    simp [primary_energy_from_deposited, h1, h2, h3]

/-- Witness for C10 at concrete inputs. -/
theorem primary_energy_from_deposited_cases_witness :
    primary_energy_from_deposited 6 "cc" (-14) 3 = some (6 / 3) ∧
    primary_energy_from_deposited 6 "tau decay" 12 3 = none :=
  ⟨primary_energy_from_deposited_cases.2.1 6 3 (-14) (Or.inl (by decide)),
   primary_energy_from_deposited_cases.2.2.2.1 6 3 12 "tau decay" (by decide) (by decide)⟩

/-- C7 counterexample: for the unknown spectrum name nonsense the error is
raised, yet the draw trace already contains direction, vertex-position and
flavor draws, so the error is not reported before any sampling occurs. -/
theorem unknown_spectrum_after_direction_draws :
    (generate_eventlist_draw_trace "nonsense").2 = true ∧
    (generate_eventlist_draw_trace "nonsense").1 ≠ [] ∧
    DrawKind.direction ∈ (generate_eventlist_draw_trace "nonsense").1 ∧
    DrawKind.vertexPosition ∈ (generate_eventlist_draw_trace "nonsense").1 ∧
    DrawKind.flavorDraw ∈ (generate_eventlist_draw_trace "nonsense").1 := by
  decide

/-- C7 amended: for every unknown spectrum name the run raises the
unknown-spectrum error, and it does so before any energy draw (and before the
interaction-type and inelasticity draws), although after the direction,
vertex-position and flavor draws. -/
theorem unknown_spectrum_before_energy_draw :
    ∀ s : String, spectrum_known s = false →
      (generate_eventlist_draw_trace s).2 = true ∧
      DrawKind.energyDraw ∉ (generate_eventlist_draw_trace s).1 ∧
      DrawKind.ccncDraw ∉ (generate_eventlist_draw_trace s).1 ∧
      DrawKind.inelasticityDraw ∉ (generate_eventlist_draw_trace s).1 := by
  intro s h
  simp [generate_eventlist_draw_trace, h]

/-- Witness for C7 amended at the concrete name nonsense. -/
theorem unknown_spectrum_before_energy_draw_witness :
    spectrum_known "nonsense" = false ∧
    DrawKind.energyDraw ∉ (generate_eventlist_draw_trace "nonsense").1 :=
  ⟨by decide, (unknown_spectrum_before_energy_draw "nonsense" (by decide)).2.1⟩

/-- C2: with proposal enabled and no full_rmax override, the cylinder branch
does not inflate the resolved rmax: for fiducial bounds rmin 0, rmax 4,
zmin -3, zmax 3 and a tau range of 5, the resolved rmax equals the fiducial
rmax 4 (so it does not strictly exceed it), the event count becomes
10 * int((4/4)^2 * (-8)/(-3)) = 20 rather than the claimed
10 * int((9/4)^2 * (-8)/(-3)) = 130, and the inflated radius 9 only reaches
the radial-sampling local. -/
theorem generate_vertex_positions_rmax_not_inflated :
    (generate_vertex_positions_cylinder ⟨some 0, 4, -3, 3, none, none, none, none⟩
        true 5 10).rmax = 4 ∧
    ¬ ((generate_vertex_positions_cylinder ⟨some 0, 4, -3, 3, none, none, none, none⟩
        true 5 10).fiducial_rmax <
      (generate_vertex_positions_cylinder ⟨some 0, 4, -3, 3, none, none, none, none⟩
        true 5 10).rmax) ∧
    (generate_vertex_positions_cylinder ⟨some 0, 4, -3, 3, none, none, none, none⟩
        true 5 10).n_events = 20 ∧
    (generate_vertex_positions_cylinder ⟨some 0, 4, -3, 3, none, none, none, none⟩
        true 5 10).sampling_rmax = some 9 ∧
    (10 : ℤ) * pyInt (((4 + 5 : ℚ) / 4) ^ 2 * (-8) / (-3)) = 130 := by
  have hval : generate_vertex_positions_cylinder
      ⟨some 0, 4, -3, 3, none, none, none, none⟩ true 5 10 =
      ⟨0, 4, -3, 3, 0, 4, -8, 1, 20, some 9⟩ := by
    simp only [generate_vertex_positions_cylinder]
    norm_num [pyInt, CylinderAttrs.mk.injEq]
  refine ⟨by rw [hval], by rw [hval]; norm_num, by rw [hval], by rw [hval], ?_⟩
  norm_num [pyInt]

/-- C6: at the box [0,1]^3 with ray origin (2, 1/2, 1/2) and direction
(-1, 1/4, 1/4), the ray reaches the inside of the box at the forward
parameter t = 3/2, yet intersection_box_ray returns false, because line 521
multiplies the far x-slab distance by the y component of the inverse
direction. -/
theorem intersection_box_ray_misses_forward_hit :
    intersection_box_ray ⟨0, 0, 0⟩ ⟨1, 1, 1⟩ ⟨2, 1/2, 1/2⟩ ⟨-1, 1/4, 1/4⟩ = false ∧
    in_box ⟨0, 0, 0⟩ ⟨1, 1, 1⟩ (ray_point ⟨2, 1/2, 1/2⟩ ⟨-1, 1/4, 1/4⟩ (3/2)) ∧
    (0 : ℚ) ≤ 3 / 2 := by
  refine ⟨?_, ?_, by norm_num⟩
  · simp only [intersection_box_ray]
    norm_num
  · simp only [in_box, ray_point]
    norm_num

/-- C3: generate_surface_muons recovers from an empty fiducial table with a
single placeholder row (the first input row with flavor forced to 14, zero
inelasticity and zero shower energy) and the single shard then carries the
originally requested total in its event-count attribute; but the writer,
which generate_eventlist_cylinder calls directly on its possibly empty
fiducial table with no such fallback, fails on an empty table. -/
theorem placeholder_row_only_in_surface_muons :
    surface_muons_empty_fallback [surfaceRow0] [] = [{ surfaceRow0 with flavors := 14 }] ∧
    (surface_muons_empty_fallback [surfaceRow0] []).length = 1 ∧
    ({ surfaceRow0 with flavors := 14 } : Row).inelasticity = some 0 ∧
    ({ surfaceRow0 with flavors := 14 } : Row).shower_energies = 0 ∧
    write_events_to_hdf5 [1] 100 1 (some 40) 0 = some [⟨some 0, 1, 1, 0, 1, 100⟩] ∧
    write_events_to_hdf5 ([] : List ℤ) 100 1 (some 40) 0 = none := by
  exact ⟨rfl, rfl, rfl, rfl, by decide, by decide⟩

/-- Helper: the product loop appends exactly one extra copy of the parent row,
in front of the first fiducial secondary, when the parent was not already
inserted and some product is fiducial; every other append is a single
secondary record indexed consecutively. -/
theorem process_products_spec (a : FiducialCylinder) (parent : Row) :
    ∀ (prods : List SecondaryProduct) (firstInserted : Bool) (k : ℕ),
      process_products a parent firstInserted k prods =
        (if firstInserted = false ∧ has_fiducial_product a parent prods = true
          then [parent] else []) ++ fiducial_secondaries a parent k prods := by
  intro prods
  induction prods with
  | nil =>
    intro fi k
    simp [process_products, has_fiducial_product, fiducial_secondaries]
  | cons p rest ih =>
    intro fi k
    cases hin : in_fiducial_cylinder a (get_product_position_time parent p).1
        (get_product_position_time parent p).2.1
        (get_product_position_time parent p).2.2.1 with
    | true =>
      cases fi with
      | true => simp [process_products, fiducial_secondaries, has_fiducial_product, hin, ih]
      | false => simp [process_products, fiducial_secondaries, has_fiducial_product, hin, ih]
    | false =>
      simp [process_products, fiducial_secondaries, has_fiducial_product, hin, ih]

/-- C4: for one lepton-producing event group, the rows appended by the
secondary expansion are: the primary row when the vertex is fiducial; one
extra verbatim copy of the parent interaction-1 row exactly when the vertex
was outside the fiducial region and some product lands inside it, placed
immediately before the first secondary record; and one secondary record per
fiducial product, with interaction indices starting at 2. -/
theorem process_event_group_copy_protocol (a : FiducialCylinder) (parent : Row)
    (prods : List SecondaryProduct) :
    process_event_group a parent prods =
      (if in_fiducial_cylinder a parent.xx parent.yy parent.zz then [parent] else []) ++
        ((if in_fiducial_cylinder a parent.xx parent.yy parent.zz = false ∧
            has_fiducial_product a parent prods = true then [parent] else []) ++
          fiducial_secondaries a parent 2 prods) := by
  simp only [process_event_group]
  rw [process_products_spec]

/-- Helper: inserting before position p + 1 of a cons peels the head. -/
theorem pyInsert_cons (x y : Row) (l : List Row) (p : ℕ) :
    pyInsert (x :: l) (p + 1) y = x :: pyInsert l p y := by
  simp [pyInsert]

/-- Helper: inserting at position 0 conses the new row. -/
theorem pyInsert_zero (l : List Row) (y : Row) : pyInsert l 0 y = y :: l := by
  simp [pyInsert]

/-- Helper: inserting at position 1 of a cons places the new row second. -/
theorem pyInsert_one (x y : Row) (l : List Row) :
    pyInsert (x :: l) 1 y = x :: y :: l := by
  simp [pyInsert]

/-- Helper: shifting every pending index by one steps the loop over an
untouched head row. -/
theorem emLoop_cons_shift : ∀ (idxs : List ℕ) (x : Row) (l : List Row) (n : ℕ),
    emLoop (x :: l) (idxs.map Nat.succ) n = x :: emLoop l idxs n := by
  intro idxs
  induction idxs with
  | nil => intro x l n; rfl
  | cons i rest ih =>
    intro x l n
    simp only [List.map_cons, emLoop]
    have h1 : Nat.succ i + n = (i + n) + 1 := by omega
    have h2 : Nat.succ i + 1 + n = (i + 1 + n) + 1 := by omega
    rw [h1, h2, List.getD_cons_succ, pyInsert_cons]
    have h3 : i + 1 + n = i + n + 1 := by omega
    rw [h3]
    exact ih x _ _

/-- Helper: a freshly inserted head row is skipped by the remaining
iterations because n_inserted grew by one. -/
theorem emLoop_inserted_shift : ∀ (idxs : List ℕ) (y : Row) (l : List Row) (n : ℕ),
    emLoop (y :: l) idxs (n + 1) = y :: emLoop l idxs n := by
  intro idxs
  induction idxs with
  | nil => intro y l n; rfl
  | cons i rest ih =>
    intro y l n
    simp only [emLoop]
    have h1 : i + (n + 1) = (i + n) + 1 := by omega
    have h2 : i + 1 + (n + 1) = (i + 1 + n) + 1 := by omega
    rw [h1, h2, List.getD_cons_succ, pyInsert_cons]
    exact ih y _ _

/-- Helper: the positional insertion loop over the masked indices equals the
per-row in-place expansion. -/
theorem emLoop_maskIdxs (rows : List Row) :
    emLoop rows (maskIdxs rows) 0 =
      rows.flatMap (fun r => if emMask r then [r, em_copy r] else [r]) := by
  induction rows with
  | nil => rfl
  | cons r rest ih =>
    cases hm : emMask r with
    | false =>
      simp only [maskIdxs, hm, Bool.false_eq_true, if_false]
      rw [emLoop_cons_shift, ih]
      simp [hm]
    | true =>
      simp only [maskIdxs, hm, if_true]
      simp only [emLoop, Nat.zero_add, Nat.add_zero, List.getD_cons_zero]
      rw [pyInsert_one, emLoop_cons_shift]
      rw [show (1 : ℕ) = 0 + 1 from rfl, emLoop_inserted_shift, ih]
      simp [hm, em_copy]

/-- Helper: lines 1017-1036 as a whole equal the specification-side per-row
expansion. -/
theorem em_split_eq (rows : List Row) :
    em_split rows = rows.flatMap em_split_spec_row := by
  unfold em_split
  rw [emLoop_maskIdxs]
  induction rows with
  | nil => rfl
  | cons r rest ih =>
    simp only [List.map_cons, List.flatMap_cons, ih, em_split_spec_row]
    rfl

/-- C5: the table after splitting replaces every electron charged-current row
by the adjacent pair of a hadronic row with shower energy inelasticity *
energy and an electromagnetic row with shower energy (1 - inelasticity) *
energy, sharing all other fields, and keeps every other row as a single
hadronic row; every insertion directly follows its source row, so relative
row order is preserved. -/
theorem em_split_pairs (rows : List Row) :
    em_split rows = rows.flatMap em_split_spec_row :=
  em_split_eq rows

/-- C9: with proposal disabled, the table passed to the writer is exactly the
baseline table after electron charged-current splitting: every sampled row
contributes its expansion regardless of its position (no fiducial filter),
and shower ids 0..N-1 are then assigned over that table in order. -/
theorem no_proposal_table_unfiltered (rows : List Row) :
    (generate_final_table_no_proposal rows).1 = rows.flatMap em_split_spec_row ∧
    (∀ r, r ∈ rows → assign_shower r ∈ (generate_final_table_no_proposal rows).1) ∧
    (generate_final_table_no_proposal rows).2 =
      List.range (rows.flatMap em_split_spec_row).length := by
  refine ⟨em_split_eq rows, ?_, ?_⟩
  · intro r hr
    rw [show (generate_final_table_no_proposal rows).1 = em_split rows from rfl,
      em_split_eq]
    exact List.mem_flatMap.mpr
      ⟨r, hr, by cases hm : emMask r <;> simp [em_split_spec_row, hm]⟩
  · rw [show (generate_final_table_no_proposal rows).2 =
      List.range (em_split rows).length from rfl, em_split_eq]

/-- Witness for C9: a row with a vertex far outside the fiducial region still
reaches the final table. -/
theorem no_proposal_table_unfiltered_witness :
    assign_shower sampleOutsideRow ∈
      (generate_final_table_no_proposal [sampleOutsideRow]).1 :=
  (no_proposal_table_unfiltered [sampleOutsideRow]).2.1 sampleOutsideRow (by simp)

/-- Helper: the head of the shard list built by the loop is independent of
the early-break test. -/
theorem shard_head_get (x : Shard) (rest : List Shard) (c : Prop) [Decidable c] :
    (if c then [x] else x :: rest).get? 0 = some x := by
  by_cases h : c <;> simp [h]

/-- Helper invariant of the shard loop: provided remaining is the tail of the
unique id list from slice iFile on, the fuel exceeds the remaining length and
prevLast is the last id of the previous slice, every shard the loop emits at
offset j carries the specification event count of shard iFile + j and the
suffix dictated by its absolute index. -/
theorem shardLoopAux_get_spec (ids : List ℤ) (nTotal : ℕ) (sid fid : ℤ) (P : ℕ)
    (uniq : List ℤ) :
    ∀ (fuel : ℕ) (remaining : List ℤ) (iFile : ℕ) (prevLast : ℤ) (sIdx : ℕ),
      remaining = uniq.drop (iFile * P) →
      remaining.length < fuel →
      (iFile ≠ 0 → prevLast = lastIdOf (sliceIds uniq P (iFile - 1))) →
      ∀ (j : ℕ) (s : Shard),
        (shardLoopAux ids nTotal sid fid P fuel remaining iFile prevLast sIdx).get? j
          = some s →
        s.nEventsThisFile = specCount uniq P nTotal sid (iFile + j) ∧
        s.fileSuffix = (if 0 < iFile + j ∨ P < nTotal
          then some (fid + ((iFile + j : ℕ) : ℤ)) else none) := by
  intro fuel
  induction fuel with
  | zero =>
    intro remaining iFile prevLast sIdx _ hlt
    exact absurd hlt (Nat.not_lt_zero _)
  | succ fuel ih =>
    intro remaining iFile prevLast sIdx hrem hlt hprev j s hget
    simp only [shardLoopAux] at hget
    by_cases hTF : remaining.take P = []
    · rw [if_pos hTF] at hget
      simp at hget
    · rw [if_neg hTF] at hget
      have hThis : remaining.take P = sliceIds uniq P iFile := by
        rw [hrem]; rfl
      have hMul : iFile * P + P = (iFile + 1) * P := by ring
      have hNext : (remaining.drop P).take P = sliceIds uniq P (iFile + 1) := by
        rw [hrem, List.drop_drop, hMul]; rfl
      have hP : P ≠ 0 := by
        rintro rfl; simp at hTF
      have hRem : remaining ≠ [] := by
        rintro rfl; simp at hTF
      cases j with
      | zero =>
        rw [shard_head_get] at hget
        injection hget with hs
        subst hs
        constructor
        · dsimp only
          simp only [Nat.add_zero, specCount]
          rw [← hNext, ← hThis]
          split_ifs with h1 h2 h3
          · rfl
          · have hne : iFile ≠ 0 := fun h0 => h1 ⟨h0, h2⟩
            rw [hprev hne]
          · rfl
          · have hne : iFile ≠ 0 := h3
            rw [hprev hne]
        · dsimp only
          simp
      | succ j =>
        by_cases hBr : lastIdOf (remaining.take P) = (nTotal : ℤ)
        · rw [if_pos hBr] at hget
          simp at hget
        · rw [if_neg hBr] at hget
          rw [List.get?_cons_succ] at hget
          have hrem2 : remaining.drop P = uniq.drop ((iFile + 1) * P) := by
            rw [hrem, List.drop_drop, hMul]
          have hlt2 : (remaining.drop P).length < fuel := by
            rw [List.length_drop]
            have hpos : 0 < remaining.length := List.length_pos.mpr hRem
            have hP1 : 1 ≤ P := Nat.one_le_iff_ne_zero.mpr hP
            omega
          have hprev2 : (iFile + 1) ≠ 0 →
              lastIdOf (remaining.take P) = lastIdOf (sliceIds uniq P ((iFile + 1) - 1)) := by
            intro _
            rw [Nat.add_sub_cancel, ← hThis]
          have hmain := ih (remaining.drop P) (iFile + 1) (lastIdOf (remaining.take P))
            (lastStop ids (lastIdOf (remaining.take P))) hrem2 hlt2 hprev2 j s hget
          have hidx : iFile + (j + 1) = (iFile + 1) + j := by omega
          rw [hidx]
          exact hmain

set_option maxRecDepth 8000 in
/-- C1: the per-shard n_events attribute written by write_events_to_hdf5
equals the four-case value in the claimed precedence (single shard: the total
simulated event count; last but not first: total minus last id of the
previous shard plus one plus start_event_id; first of several: last id of
this shard minus start_event_id plus one; interior: last id of this shard
minus last id of the previous shard), and in the concrete scenario of 100
events with ids 0..99, one row each and 40 events per file, exactly three
shards are written with counts 40, 40, 20 and row ranges [0,40), [40,80),
[80,100). -/
theorem write_events_to_hdf5_n_events_cases :
    (∀ (egids : List ℤ) (nTotal : ℕ) (sid : ℤ) (nPerFile : Option ℕ) (fid : ℤ)
        (shards : List Shard) (j : ℕ) (s : Shard),
      write_events_to_hdf5 egids nTotal sid nPerFile fid = some shards →
      shards.get? j = some s →
      s.nEventsThisFile =
        specCount (uniqueSorted egids) (nPerFile.getD nTotal) nTotal sid j) ∧
    write_events_to_hdf5 ((List.range 100).map Int.ofNat) 100 0 (some 40) 0 =
      some [⟨some 0, 0, 39, 0, 40, 40⟩, ⟨some 1, 40, 79, 40, 80, 40⟩,
        ⟨some 2, 80, 99, 80, 100, 20⟩] := by
  constructor
  · intro egids nTotal sid nPerFile fid shards j s hw hg
    cases egids with
    | nil => simp [write_events_to_hdf5] at hw
    | cons a as =>
      simp only [write_events_to_hdf5, Option.some.injEq] at hw
      subst hw
      have h := shardLoopAux_get_spec (a :: as) nTotal sid fid (nPerFile.getD nTotal)
        (uniqueSorted (a :: as)) ((uniqueSorted (a :: as)).length + 1)
        (uniqueSorted (a :: as)) 0 0 0 (by simp) (Nat.lt_succ_self _)
        (fun h0 => absurd rfl h0) j s hg
      simpa using h.1
  · decide

/-- Witness for C1: the general statement applied at the concrete scenario,
shard index 2. -/
theorem write_events_to_hdf5_n_events_cases_witness :
    (Shard.mk (some 2) 80 99 80 100 20).nEventsThisFile =
      specCount (uniqueSorted ((List.range 100).map Int.ofNat))
        ((some 40 : Option ℕ).getD 100) 100 0 2 :=
  write_events_to_hdf5_n_events_cases.1 ((List.range 100).map Int.ofNat) 100 0
    (some 40) 0
    [⟨some 0, 0, 39, 0, 40, 40⟩, ⟨some 1, 40, 79, 40, 80, 40⟩,
      ⟨some 2, 80, 99, 80, 100, 20⟩] 2 ⟨some 2, 80, 99, 80, 100, 20⟩
    write_events_to_hdf5_n_events_cases.2 (by decide)

/-- C8 counterexample: a call that produces exactly one shard (total 2,
ids only 0, one event per file) still gets the zero-padded suffix because
n_events_per_file is smaller than the total event count, so a single produced
shard is not always named by the plain base name. -/
theorem single_shard_suffixed :
    write_events_to_hdf5 [0] 2 0 (some 1) 0 = some [⟨some 0, 0, 0, 0, 1, 2⟩] ∧
    [(⟨some 0, 0, 0, 0, 1, 2⟩ : Shard)].length = 1 ∧
    (⟨some 0, 0, 0, 0, 1, 2⟩ : Shard).fileSuffix ≠ none := by
  decide

/-- C8 amended: shard j is written under the plain base name exactly when
j = 0 and the per-file limit (defaulting to the total when unset) is at least
the total simulated event count; otherwise it carries the zero-padded suffix
start_file_id + j.  In particular a run whose only shard is produced with
n_events_per_file below the total still gets a suffix. -/
theorem shard_suffix_rule :
    ∀ (egids : List ℤ) (nTotal : ℕ) (sid : ℤ) (nPerFile : Option ℕ) (fid : ℤ)
        (shards : List Shard) (j : ℕ) (s : Shard),
      write_events_to_hdf5 egids nTotal sid nPerFile fid = some shards →
      shards.get? j = some s →
      s.fileSuffix = (if 0 < j ∨ nPerFile.getD nTotal < nTotal
        then some (fid + (j : ℤ)) else none) := by
  intro egids nTotal sid nPerFile fid shards j s hw hg
  cases egids with
  | nil => simp [write_events_to_hdf5] at hw
  | cons a as =>
    simp only [write_events_to_hdf5, Option.some.injEq] at hw
    subst hw
    have h := shardLoopAux_get_spec (a :: as) nTotal sid fid (nPerFile.getD nTotal)
      (uniqueSorted (a :: as)) ((uniqueSorted (a :: as)).length + 1)
      (uniqueSorted (a :: as)) 0 0 0 (by simp) (Nat.lt_succ_self _)
      (fun h0 => absurd rfl h0) j s hg
    simpa using h.2

/-- Witness for C8 amended at the single-suffixed-shard input. -/
theorem shard_suffix_rule_witness :
    (Shard.mk (some 0) 0 0 0 1 2).fileSuffix =
      (if 0 < (0 : ℕ) ∨ (some 1 : Option ℕ).getD 2 < 2
        then some ((0 : ℤ) + ((0 : ℕ) : ℤ)) else none) := by
  exact shard_suffix_rule [0] 2 0 (some 1) 0 [⟨some 0, 0, 0, 0, 1, 2⟩] 0
    ⟨some 0, 0, 0, 0, 1, 2⟩ (by decide) (by decide)
